import Mathlib

/-!
Verification of the restricted arithmetic-expression evaluator of
StreamLit-Calculator (src/app.py).

The evaluator is a Python program built on the host language's `ast` module:
`safe_eval` strips the input, applies length checks, parses with `ast.parse`
in eval mode, applies a node-count bound, and hands the tree to `_eval_ast`,
which whitelists node kinds and operators and computes a numeric result.
`fmt_res` renders results.

Embedding conventions:
- Python `int` is arbitrary precision, embedded as `ℤ`.
- Python `float` results are embedded as exact rationals (`MQ`, a reduced
  fraction kept in canonical form); this is the exact-rational idealisation
  of IEEE doubles.  Host results that are not rational (fractional-exponent
  powers, which in CPython yield an irrational float or a complex number)
  are embedded as the distinguished value `PyVal.irr`; no theorem below
  depends on the numeric value of `PyVal.irr`.
- Python exceptions raised by the evaluator are embedded as the classified
  failure kinds of the specification: every `ValueError` raise site maps to
  `EmptyExpression` / `ExpressionTooLong` / `InvalidSyntax` /
  `ExpressionTooComplex` per its message, and every `ZeroDivisionError`
  (the explicit guard on Div as well as the ones raised by the host for
  `%` with zero right operand and `0 ** negative`) maps to `DivisionByZero`.
- Python `bool` is a subclass of `int`: `isinstance(True, int)` holds, and
  arithmetic coerces `True`/`False` to `1`/`0`.  The embedding keeps this
  faithfully (constructor `PyVal.bool`, coerced by the arithmetic helpers),
  because the whitelist check `isinstance(node.value, (int, float))` in
  `_eval_ast` therefore accepts boolean literals.
- `ast.parse` is host-language code, not part of this repository; it is
  embedded for the numeric-expression fragment by `pyParse` below, following
  CPython's expression grammar (precedence, `**` right-associativity, unary
  signs in exponents).  Strings outside that fragment are rejected by
  `pyParse`; in CPython they either fail to parse (SyntaxError, re-raised as
  ValueError by `safe_eval`) or parse into trees that `_eval_ast` rejects
  with ValueError, and both paths are the classified failure InvalidSyntax,
  so the composite classification agrees on such inputs.
-/

set_option maxRecDepth 40000

/-- Classified failures of the specification (section 7).  These are the
evaluator's exception outcomes, classified by raise site as described in the
module docstring. -/
inductive PyFail where
  | EmptyExpression
  | ExpressionTooLong
  | InvalidSyntax
  | ExpressionTooComplex
  | DivisionByZero
  deriving DecidableEq

/-- Exact rational numbers in canonical reduced form (denominator positive,
gcd of numerator and denominator equal to one), used to embed Python float
results exactly.  All constructions go through `mkMQ`, so structural equality
of `MQ` values built by the operations below coincides with rational
equality. -/
structure MQ where
  num : ℤ
  den : ℕ
  deriving DecidableEq

/-- Build the canonical reduced fraction n / d (for d ≠ 0; the d = 0 case is
junk and is never reached by the evaluator, whose division guards run
first). -/
def mkMQ (n d : ℤ) : MQ :=
  if d = 0 then ⟨0, 0⟩
  else
    let s : ℤ := if d < 0 then -1 else 1
    let n' := s * n
    let d' := (s * d).toNat
    let g := Nat.gcd n'.natAbs d'
    ⟨n' / g, d' / g⟩

def MQ.ofInt (n : ℤ) : MQ := ⟨n, 1⟩

def MQ.add (a b : MQ) : MQ := mkMQ (a.num * b.den + b.num * a.den) (a.den * b.den)

def MQ.sub (a b : MQ) : MQ := mkMQ (a.num * b.den - b.num * a.den) (a.den * b.den)

def MQ.mul (a b : MQ) : MQ := mkMQ (a.num * b.num) (a.den * b.den)

def MQ.div (a b : MQ) : MQ := mkMQ (a.num * b.den) (a.den * b.num)

def MQ.neg (a : MQ) : MQ := ⟨-a.num, a.den⟩

/-- Floor of a rational, via floor division of the numerator by the
denominator. -/
def MQ.floor (a : MQ) : ℤ := a.num.fdiv a.den

def MQ.powNat (a : MQ) : ℕ → MQ
  | 0 => MQ.ofInt 1
  | n + 1 => MQ.mul a (MQ.powNat a n)

/-- Integer-exponent power on rationals; a negative exponent inverts (callers
guard the zero-base case first, mirroring the host's ZeroDivisionError). -/
def MQ.powInt (a : MQ) : ℤ → MQ
  | .ofNat n => MQ.powNat a n
  | .negSucc n => MQ.div (MQ.ofInt 1) (MQ.powNat a (n + 1))

/-- Python floored modulo on rationals: x - y * floor (x / y), the host's
convention for `%` on floats (result carries the sign of the divisor). -/
def MQ.fmod (a b : MQ) : MQ := MQ.sub a (MQ.mul b (MQ.ofInt (MQ.floor (MQ.div a b))))

/-- Exponentiation on integers (structural, so that kernel evaluation
works). -/
def intPow : ℤ → ℕ → ℤ
  | _, 0 => 1
  | a, n + 1 => a * intPow a n

/-- Binary-operator kinds of the host AST (`ast.Add`, `ast.Sub`, ...).  The
first six are the keys of `ALLOWED_OPERATORS` in src/app.py; the rest exist
in the host grammar but are not whitelisted. -/
inductive PyBinOp where
  | add | sub | mult | div | pow | mod
  | floorDiv | lshift | rshift | bitOr | bitXor | bitAnd | matMult
  deriving DecidableEq

/-- Unary-operator kinds of the host AST.  `uadd` and `usub` are whitelisted
in `ALLOWED_OPERATORS`; `uNot` (logical not) and `invert` (~) are not. -/
inductive PyUnaryOp where
  | uadd | usub | uNot | invert
  deriving DecidableEq

/-- Values carried by `ast.Constant` nodes.  Python booleans are a distinct
constructor because `bool` is its own type even though it subclasses
`int`. -/
inductive PyConst where
  | int (n : ℤ)
  | float (q : MQ)
  | bool (b : Bool)
  | str (s : String)
  | none
  deriving DecidableEq

/-- The host's generic expression AST, restricted to the node kinds relevant
to the program: the whitelisted shapes plus representative disallowed kinds
(names, calls, attribute access, subscripts, collection and comparison and
conditional nodes).  Child lists of the host AST (call arguments, collection
elements, comparison chains) are encoded as `seqCons`/`seqNil` chains; the
chain constructors themselves are bookkeeping and contribute no node count.
`num` is the legacy `ast.Num` node handled by `_eval_ast` for pre-3.8
compatibility. -/
inductive PyAst where
  | const (v : PyConst)
  | num (n : ℤ)
  | binOp (o : PyBinOp) (l r : PyAst)
  | unaryOp (o : PyUnaryOp) (e : PyAst)
  | name (id : String)
  | call (f : PyAst) (args : PyAst)
  | attr (v : PyAst) (a : String)
  | subscript (v i : PyAst)
  | listLit (elts : PyAst)
  | tupleLit (elts : PyAst)
  | compare (l : PyAst) (nOps : ℕ) (rest : PyAst)
  | boolOp (isAnd : Bool) (vals : PyAst)
  | ifExp (c t e : PyAst)
  | seqNil
  | seqCons (hd tl : PyAst)
  deriving DecidableEq

/-- Number of AST objects `ast.walk` yields for a node, excluding the
top-level `ast.Expression` wrapper (which `safe_eval` counts separately).
Operator kinds and `Load` contexts are AST objects in the host and are
counted: a `BinOp` contributes itself plus its operator object, a `Name` or
collection literal contributes itself plus its context object, and so on. -/
def walkCount : PyAst → ℕ
  | .const _ => 1
  | .num _ => 1
  | .binOp _ l r => 2 + walkCount l + walkCount r
  | .unaryOp _ e => 2 + walkCount e
  | .name _ => 2
  | .call f a => 1 + walkCount f + walkCount a
  | .attr v _ => 2 + walkCount v
  | .subscript v i => 2 + walkCount v + walkCount i
  | .listLit e => 2 + walkCount e
  | .tupleLit e => 2 + walkCount e
  | .compare l k r => 1 + k + walkCount l + walkCount r
  | .boolOp _ e => 2 + walkCount e
  | .ifExp c t e => 1 + walkCount c + walkCount t + walkCount e
  | .seqNil => 0
  | .seqCons h t => walkCount h + walkCount t

/-- Runtime values of the evaluator: Python ints, floats (exact-rational
idealisation), bools (reachable because the whitelist admits boolean
constants), and `irr` for finite host results outside the rational
idealisation (see module docstring). -/
inductive PyVal where
  | int (n : ℤ)
  | float (q : MQ)
  | bool (b : Bool)
  | irr
  deriving DecidableEq

deriving instance DecidableEq for Except

/-- Python numeric equality with zero, as used by the guard
`right == 0` in `_eval_ast`: integer zero, float zero and `False` all
compare equal to 0. -/
def pyEq0 : PyVal → Bool
  | .int n => n == 0
  | .float q => q.num == 0
  | .bool b => !b
  | .irr => false

/-- View a value as a Python `int`-typed operand (`int` or `bool`, since
bool subclasses int); floats and `irr` are not int-typed. -/
def asIntV : PyVal → Option ℤ
  | .int n => some n
  | .bool b => some (if b then 1 else 0)
  | _ => Option.none

/-- View a value as an exact rational; `irr` has no such view. -/
def asMQ : PyVal → Option MQ
  | .int n => some (MQ.ofInt n)
  | .float q => some q
  | .bool b => some (MQ.ofInt (if b then 1 else 0))
  | .irr => Option.none

/-- Shared shape of Python `+`, `-`, `*`: int-typed operands give an int,
otherwise the computation is over floats; any `irr` operand propagates. -/
def pyArith (f : ℤ → ℤ → ℤ) (g : MQ → MQ → MQ) (l r : PyVal) : PyVal :=
  match asIntV l, asIntV r with
  | some a, some b => .int (f a b)
  | _, _ =>
    match asMQ l, asMQ r with
    | some a, some b => .float (g a b)
    | _, _ => .irr

/-- Python true division `operator.truediv`: always float-valued.  The zero
divisor case never reaches this function: `_eval_ast` guards it first. -/
def pyDiv (l r : PyVal) : PyVal :=
  match asMQ l, asMQ r with
  | some a, some b => .float (MQ.div a b)
  | _, _ => .irr

/-- Python `operator.mod`: the host raises ZeroDivisionError itself on a
zero right operand (int and float alike), embedded as the classified
DivisionByZero; otherwise floored modulo, int-typed when both operands
are. -/
def pyMod (l r : PyVal) : Except PyFail PyVal :=
  if pyEq0 r then .error .DivisionByZero
  else
    match asIntV l, asIntV r with
    | some a, some b => .ok (.int (Int.fmod a b))
    | _, _ =>
      match asMQ l, asMQ r with
      | some a, some b => .ok (.float (MQ.fmod a b))
      | _, _ => .ok .irr

/-- Python `operator.pow`: int ** nonnegative int is an exact int;
a negative exponent of a nonzero base gives a float (the host's
`0 ** negative` raises ZeroDivisionError); a float base or exponent gives a
float when the exponent is integral, and otherwise the result is outside
the rational idealisation (`irr`; in CPython an irrational float, or a
complex number for a negative base). -/
def pyPow (l r : PyVal) : Except PyFail PyVal :=
  match asIntV l, asIntV r with
  | some a, some b =>
    if 0 ≤ b then .ok (.int (intPow a b.toNat))
    else if a = 0 then .error .DivisionByZero
    else .ok (.float (MQ.powInt (MQ.ofInt a) b))
  | _, _ =>
    match asMQ l, asMQ r with
    | some a, some b =>
      if b.den = 1 then
        if a.num = 0 ∧ b.num < 0 then .error .DivisionByZero
        else .ok (.float (MQ.powInt a b.num))
      else
        if a.num = 0 then
          if b.num < 0 then .error .DivisionByZero else .ok (.float (MQ.ofInt 0))
        else .ok .irr
    | _, _ => .ok .irr

/-- Whether a binary-operator kind is a key of `ALLOWED_OPERATORS`. -/
def allowedBin : PyBinOp → Bool
  | .add | .sub | .mult | .div | .pow | .mod => true
  | _ => false

/-- Whether a unary-operator kind is a key of `ALLOWED_OPERATORS`. -/
def allowedUn : PyUnaryOp → Bool
  | .uadd | .usub => true
  | _ => false

/-- Application `ALLOWED_OPERATORS[op_type](left, right)` for the six
whitelisted binary operators (the remaining kinds are never applied:
`_eval_ast` rejects them before application). -/
def applyBin (o : PyBinOp) (l r : PyVal) : Except PyFail PyVal :=
  match o with
  | .add => .ok (pyArith (fun a b => a + b) MQ.add l r)
  | .sub => .ok (pyArith (fun a b => a - b) MQ.sub l r)
  | .mult => .ok (pyArith (fun a b => a * b) MQ.mul l r)
  | .div => .ok (pyDiv l r)
  | .pow => pyPow l r
  | .mod => pyMod l r
  | _ => .error .InvalidSyntax

/-- Application `ALLOWED_OPERATORS[op_type](operand)` for the two
whitelisted unary operators: `operator.pos` and `operator.neg`, which
coerce bools to ints. -/
def applyUn (o : PyUnaryOp) (v : PyVal) : PyVal :=
  match o, v with
  | .uadd, .int n => .int n
  | .uadd, .float q => .float q
  | .uadd, .bool b => .int (if b then 1 else 0)
  | .usub, .int n => .int (-n)
  | .usub, .float q => .float (MQ.neg q)
  | .usub, .bool b => .int (if b then -1 else 0)
  | _, v => v

/-- The recursive tree walk `_eval_ast` of src/app.py (the leading
underscore of the source name is dropped).  Constants are admitted when
`isinstance(value, (int, float))` holds — which in Python includes bools —
and every other constant raises ValueError (InvalidSyntax).  Binary and
unary nodes evaluate their children first, then check the operator against
the whitelist, with the explicit Div-by-zero guard before application.
Every non-whitelisted node kind raises ValueError (InvalidSyntax). -/
def eval_ast : PyAst → Except PyFail PyVal
  | .const v =>
    match v with
    | .int n => .ok (.int n)
    | .float q => .ok (.float q)
    | .bool b => .ok (.bool b)
    | _ => .error .InvalidSyntax
  | .num n => .ok (.int n)
  | .binOp o l r =>
    match eval_ast l with
    | .error f => .error f
    | .ok lv =>
      match eval_ast r with
      | .error f => .error f
      | .ok rv =>
        if allowedBin o then
          if o = PyBinOp.div ∧ pyEq0 rv then .error .DivisionByZero
          else applyBin o lv rv
        else .error .InvalidSyntax
  | .unaryOp o e =>
    match eval_ast e with
    | .error f => .error f
    | .ok v => if allowedUn o then .ok (applyUn o v) else .error .InvalidSyntax
  | _ => .error .InvalidSyntax

/-- The post-parse part of `safe_eval`: the walk-based node count (the `+ 1`
is the `ast.Expression` wrapper produced by eval-mode parsing) is checked
against the 200-node bound, then the tree is evaluated. -/
def evalTop (t : PyAst) : Except PyFail PyVal :=
  if 200 < 1 + walkCount t then .error .ExpressionTooComplex
  else eval_ast t

/-- Tokens of the numeric-expression fragment of the host grammar. -/
inductive Tok where
  | int (n : ℕ)
  | float (q : MQ)
  | plus | minus | star | slash | percent | dstar | lpar | rpar
  deriving DecidableEq

/-- Read a run of decimal digits, accumulating their value. -/
def readInt : List Char → ℕ → ℕ × List Char
  | c :: cs, acc =>
    if c.isDigit then readInt cs (10 * acc + (c.toNat - 48)) else (acc, c :: cs)
  | [], acc => (acc, [])

/-- Read a run of decimal digits, accumulating value and digit count (for
the fractional part of a float literal). -/
def readFrac : List Char → ℕ → ℕ → ℕ × ℕ × List Char
  | c :: cs, acc, k =>
    if c.isDigit then readFrac cs (10 * acc + (c.toNat - 48)) (k + 1)
    else (acc, k, c :: cs)
  | [], acc, k => (acc, k, [])

/-- Tokenizer for the numeric-expression fragment: integer and decimal
float literals (including forms like `5.` and `.5`), the operator symbols
`+ - * / % **` and parentheses, with space and tab skipped.  Any other
character makes tokenization fail (classified InvalidSyntax downstream). -/
def tokenize : ℕ → List Char → Option (List Tok)
  | 0, _ => Option.none
  | _, [] => some []
  | f + 1, c :: cs =>
    if c == ' ' || c == '\t' then tokenize f cs
    else if c.isDigit then
      let p := readInt (c :: cs) 0
      match p.2 with
      | '.' :: cs₂ =>
        let q := readFrac cs₂ 0 0
        Option.map (fun ts => Tok.float (mkMQ (p.1 * 10 ^ q.2.1 + q.1) (10 ^ q.2.1)) :: ts)
          (tokenize f q.2.2)
      | _ => Option.map (fun ts => Tok.int p.1 :: ts) (tokenize f p.2)
    else if c == '.' then
      match cs with
      | d :: _ =>
        if d.isDigit then
          let q := readFrac cs 0 0
          Option.map (fun ts => Tok.float (mkMQ q.1 (10 ^ q.2.1)) :: ts) (tokenize f q.2.2)
        else Option.none
      | [] => Option.none
    else if c == '+' then Option.map (fun ts => Tok.plus :: ts) (tokenize f cs)
    else if c == '-' then Option.map (fun ts => Tok.minus :: ts) (tokenize f cs)
    else if c == '%' then Option.map (fun ts => Tok.percent :: ts) (tokenize f cs)
    else if c == '(' then Option.map (fun ts => Tok.lpar :: ts) (tokenize f cs)
    else if c == ')' then Option.map (fun ts => Tok.rpar :: ts) (tokenize f cs)
    else if c == '*' then
      match cs with
      | '*' :: cs' => Option.map (fun ts => Tok.dstar :: ts) (tokenize f cs')
      | _ => Option.map (fun ts => Tok.star :: ts) (tokenize f cs)
    else if c == '/' then Option.map (fun ts => Tok.slash :: ts) (tokenize f cs)
    else Option.none

/-- Nonterminal tags of the recursive-descent parser: expression, its
left-associative plus/minus loop, term, its left-associative
multiplicative loop, factor
(unary signs), and power/atom. -/
inductive PTag where
  | pe | peL | pt | ptL | pf | pw
  deriving DecidableEq

/-- Fuel-based recursive-descent parser for CPython's expression grammar
restricted to the numeric fragment:
expr is a term followed by additive-operator term steps, term is a factor
followed by multiplicative-operator factor steps, factor is
(+|-) factor or power, power is atom followed by an optional `**` factor
(so `**` is right-associative, binds tighter than a unary sign on its left,
and admits a unary sign directly in its exponent, exactly as in the host
grammar), atom is a literal or a parenthesized expr.  The third argument is
the left-context accumulator used by the loop tags. -/
def parseL : ℕ → PTag → PyAst → List Tok → Option (PyAst × List Tok)
  | 0, _, _, _ => Option.none
  | f + 1, .pe, _, ts =>
    match parseL f .pt PyAst.seqNil ts with
    | some (a, ts₁) => parseL f .peL a ts₁
    | _ => Option.none
  | f + 1, .peL, acc, Tok.plus :: ts =>
    match parseL f .pt PyAst.seqNil ts with
    | some (b, ts₁) => parseL f .peL (.binOp .add acc b) ts₁
    | _ => Option.none
  | f + 1, .peL, acc, Tok.minus :: ts =>
    match parseL f .pt PyAst.seqNil ts with
    | some (b, ts₁) => parseL f .peL (.binOp .sub acc b) ts₁
    | _ => Option.none
  | _ + 1, .peL, acc, ts => some (acc, ts)
  | f + 1, .pt, _, ts =>
    match parseL f .pf PyAst.seqNil ts with
    | some (a, ts₁) => parseL f .ptL a ts₁
    | _ => Option.none
  | f + 1, .ptL, acc, Tok.star :: ts =>
    match parseL f .pf PyAst.seqNil ts with
    | some (b, ts₁) => parseL f .ptL (.binOp .mult acc b) ts₁
    | _ => Option.none
  | f + 1, .ptL, acc, Tok.slash :: ts =>
    match parseL f .pf PyAst.seqNil ts with
    | some (b, ts₁) => parseL f .ptL (.binOp .div acc b) ts₁
    | _ => Option.none
  | f + 1, .ptL, acc, Tok.percent :: ts =>
    match parseL f .pf PyAst.seqNil ts with
    | some (b, ts₁) => parseL f .ptL (.binOp .mod acc b) ts₁
    | _ => Option.none
  | _ + 1, .ptL, acc, ts => some (acc, ts)
  | f + 1, .pf, _, Tok.plus :: ts =>
    match parseL f .pf PyAst.seqNil ts with
    | some (e, ts₁) => some (.unaryOp .uadd e, ts₁)
    | _ => Option.none
  | f + 1, .pf, _, Tok.minus :: ts =>
    match parseL f .pf PyAst.seqNil ts with
    | some (e, ts₁) => some (.unaryOp .usub e, ts₁)
    | _ => Option.none
  | f + 1, .pf, _, ts => parseL f .pw PyAst.seqNil ts
  | f + 1, .pw, _, ts =>
    match
      (match ts with
       | Tok.int n :: ts₁ => some (PyAst.const (.int (n : ℤ)), ts₁)
       | Tok.float q :: ts₁ => some (PyAst.const (.float q), ts₁)
       | Tok.lpar :: ts₁ =>
         match parseL f .pe PyAst.seqNil ts₁ with
         | some (e, Tok.rpar :: ts₂) => some (e, ts₂)
         | _ => Option.none
       | _ => Option.none)
    with
    | some (a, Tok.dstar :: ts₂) =>
      match parseL f .pf PyAst.seqNil ts₂ with
      | some (e, ts₃) => some (PyAst.binOp .pow a e, ts₃)
      | _ => Option.none
    | some (a, ts₁) => some (a, ts₁)
    | _ => Option.none

/-- Embedding of `ast.parse(expr, mode="eval")` for the numeric-expression
fragment (see the module docstring for its scope): tokenize, parse a full
expression, and require all input consumed. -/
def pyParse (cs : List Char) : Option PyAst :=
  match tokenize (cs.length + 1) cs with
  | some ts =>
    match parseL (10 * ts.length + 40) .pe PyAst.seqNil ts with
    | some (t, []) => some t
    | _ => Option.none
  | _ => Option.none

/-- Python str.strip() whitespace test for the ASCII whitespace
characters. -/
def pyWsChar (c : Char) : Bool :=
  c == ' ' || c == '\t' || c == '\n' || c == '\r' || c == '\x0b' || c == '\x0c'

/-- Python `expression.strip()`: drop leading and trailing whitespace. -/
def pyStripL (cs : List Char) : List Char :=
  ((cs.dropWhile pyWsChar).reverse.dropWhile pyWsChar).reverse

/-- The function `safe_eval` of src/app.py over the characters of its
input: strip, fail on empty input (EmptyExpression), fail on stripped
length above 300 (ExpressionTooLong), parse (a parse failure is re-raised
as ValueError, classified InvalidSyntax), then check the node count and
evaluate via `evalTop`. -/
def safe_evalL (cs : List Char) : Except PyFail PyVal :=
  if pyStripL cs = [] then .error .EmptyExpression
  else if 300 < (pyStripL cs).length then .error .ExpressionTooLong
  else
    match pyParse (pyStripL cs) with
    | some t => evalTop t
    | _ => .error .InvalidSyntax

/-- The function `safe_eval` of src/app.py on a string input (Python `len`
and indexing count code points, matching the character list view). -/
def safe_eval (s : String) : Except PyFail PyVal := safe_evalL s.toList

/-- Least k (at least 1) such that a * 10 ^ k is at least 1, for a positive
rational a below 1.  The fuel bound 400 covers every value in the host's
double range (whose smallest positive value is above 10 ^ (-324)). -/
def smallExp : ℕ → MQ → ℕ
  | 0, _ => 1
  | f + 1, a =>
    let a' := MQ.mul a (MQ.ofInt 10)
    if a'.num < (a'.den : ℤ) then 1 + smallExp f a' else 1

/-- Decimal exponent of a positive rational: the e with
10 ^ e ≤ a < 10 ^ (e + 1). -/
def mqExp10 (a : MQ) : ℤ :=
  if (a.den : ℤ) ≤ a.num then ((Nat.repr (MQ.floor a).toNat).length : ℤ) - 1
  else -(smallExp 400 a : ℤ)

/-- Round a rational to the nearest integer, ties to even (the rounding of
the host's float formatting). -/
def mqRound (a : MQ) : ℤ :=
  let fl := MQ.floor a
  let fr := MQ.sub a (MQ.ofInt fl)
  let c := MQ.sub fr (MQ.div (MQ.ofInt 1) (MQ.ofInt 2))
  if 0 < c.num then fl + 1
  else if c.num < 0 then fl
  else if fl % 2 = 0 then fl else fl + 1

/-- Drop trailing zero digits. -/
def stripZeroChars (ds : List Char) : List Char :=
  (ds.reverse.dropWhile (fun c => c == '0')).reverse

/-- Two-digit zero padding of an exponent, as in the host's float
formatting. -/
def pad2 (n : ℕ) : String := if n < 10 then "0" ++ Nat.repr n else Nat.repr n

/-- The host's "%.10g" format applied to the exact-rational idealisation of
a float: round to 10 significant decimal digits (ties to even), use
scientific notation when the decimal exponent is below -4 or at least 10,
and trim trailing insignificant zeros. -/
def pyFmtG (q : MQ) : String :=
  if q.num = 0 then "0"
  else
    let sign := if q.num < 0 then "-" else ""
    let a : MQ := ⟨(q.num.natAbs : ℤ), q.den⟩
    let e0 := mqExp10 a
    let scaled := MQ.mul a (MQ.powInt (MQ.ofInt 10) (9 - e0))
    let d0 := (mqRound scaled).toNat
    let d1 := if 10 ^ 10 ≤ d0 then d0 / 10 else d0
    let e1 : ℤ := if 10 ^ 10 ≤ d0 then e0 + 1 else e0
    let ds := (Nat.repr d1).toList
    if -4 ≤ e1 ∧ e1 < 10 then
      if 0 ≤ e1 then
        let k := e1.toNat + 1
        let ip := ds.take k
        let fp := stripZeroChars (ds.drop k)
        sign ++ String.mk ip ++ (if fp = [] then "" else "." ++ String.mk fp)
      else
        let z := List.replicate (e1.natAbs - 1) '0'
        sign ++ "0." ++ String.mk (z ++ stripZeroChars ds)
    else
      let m0 := ds.take 1
      let mr := stripZeroChars (ds.drop 1)
      let es := if e1 < 0 then "e-" ++ pad2 e1.natAbs else "e+" ++ pad2 e1.toNat
      sign ++ String.mk m0 ++ (if mr = [] then "" else "." ++ String.mk mr) ++ es

/-- The function `fmt_res` of src/app.py: floats are rendered with the
format string "{value:.10g}"; every other value is rendered with `str`, so
ints print in plain decimal and bools print as True/False.  The `irr`
placeholder stands for a host value outside the rational idealisation; its
rendering is not modelled and no theorem depends on it. -/
def fmt_res : PyVal → String
  | .float q => pyFmtG q
  | .int n => toString n
  | .bool b => if b then "True" else "False"
  | .irr => "unrepresentable"

/-- Lookup in the memoization cache model (most recent first), keyed on the
literal input string as `functools.lru_cache` is. -/
def cacheLookup : List (String × PyVal) → String → Option PyVal
  | [], _ => Option.none
  | p :: c, s => if p.1 = s then some p.2 else cacheLookup c s

/-- One call through the bounded memoization cache wrapped around
`safe_eval` (`lru_cache(maxsize=256)`): a hit returns the cached value and
promotes its entry to the front; a miss computes `safe_eval`, caching the
result on success with least-recently-used eviction beyond 256 entries
(`lru_cache` does not cache raised exceptions, so failures are not
inserted).  Returns the observable result and the new cache state. -/
def cachedEval (c : List (String × PyVal)) (s : String) :
    Except PyFail PyVal × List (String × PyVal) :=
  match cacheLookup c s with
  | some v => (.ok v, (s, v) :: c.eraseP (fun p => p.1 == s))
  | _ =>
    match safe_eval s with
    | .ok v => (.ok v, ((s, v) :: c).take 256)
    | .error f => (.error f, c)

/-- Invariant of reachable cache states: every entry records the true
result of `safe_eval` on its key. -/
def cacheOK (c : List (String × PyVal)) : Prop := ∀ p ∈ c, safe_eval p.1 = .ok p.2

/-- The whitelist test on constants, `isinstance(node.value, (int, float))`:
ints and floats pass, and so do bools, because Python's bool is a subclass
of int (the defect recorded for claim C3). -/
def constNumeric : PyConst → Bool
  | .int _ => true
  | .float _ => true
  | .bool _ => true
  | _ => false

/-- Whether a tree contains a node outside the evaluator's whitelist: a
constant failing the isinstance test, an operator outside
ALLOWED_OPERATORS, or any node kind other than constants and the legacy
numeric literal, binary operations and unary operations.  The list-chain
encoders only occur under such nodes and count as disallowed
themselves. -/
def hasDisallowed : PyAst → Bool
  | .const v => !constNumeric v
  | .num _ => false
  | .binOp o l r => !allowedBin o || hasDisallowed l || hasDisallowed r
  | .unaryOp o e => !allowedUn o || hasDisallowed e
  | _ => true

/-- Specification-side numeric view (section 4.3 of the spec): ints and
floats only — no bools, no values outside the rational idealisation. -/
def asSpecMQ : PyVal → Option MQ
  | .int n => some (MQ.ofInt n)
  | .float q => some q
  | _ => Option.none

/-- Specification-side view of a pair of int operands. -/
def bothInt : PyVal → PyVal → Option (ℤ × ℤ)
  | .int a, .int b => some (a, b)
  | _, _ => Option.none

/-- Specification-side meaning of one binary operator (spec section 4.3):
add, subtract and multiply with int-on-int staying int; true division,
undefined on a zero divisor; floored modulo, undefined on a zero divisor;
power with nonnegative int exponents exact, negative exponents float (and
undefined for a zero base), and float powers defined for integral exponents
only (other exponents have irrational or complex values, outside this
denotation).  Non-arithmetic operators have no meaning. -/
def specBin (o : PyBinOp) (x y : PyVal) : Option PyVal :=
  match o with
  | .add =>
    match bothInt x y with
    | some (a, b) => some (.int (a + b))
    | _ => do
      let p ← asSpecMQ x
      let q ← asSpecMQ y
      some (.float (MQ.add p q))
  | .sub =>
    match bothInt x y with
    | some (a, b) => some (.int (a - b))
    | _ => do
      let p ← asSpecMQ x
      let q ← asSpecMQ y
      some (.float (MQ.sub p q))
  | .mult =>
    match bothInt x y with
    | some (a, b) => some (.int (a * b))
    | _ => do
      let p ← asSpecMQ x
      let q ← asSpecMQ y
      some (.float (MQ.mul p q))
  | .div => do
    let p ← asSpecMQ x
    let q ← asSpecMQ y
    if q.num = 0 then Option.none else some (.float (MQ.div p q))
  | .mod =>
    match bothInt x y with
    | some (a, b) => if b = 0 then Option.none else some (.int (Int.fmod a b))
    | _ => do
      let p ← asSpecMQ x
      let q ← asSpecMQ y
      if q.num = 0 then Option.none else some (.float (MQ.fmod p q))
  | .pow =>
    match bothInt x y with
    | some (a, b) =>
      if 0 ≤ b then some (.int (intPow a b.toNat))
      else if a = 0 then Option.none
      else some (.float (MQ.powInt (MQ.ofInt a) b))
    | _ => do
      let p ← asSpecMQ x
      let q ← asSpecMQ y
      if q.den = 1 then
        if p.num = 0 ∧ q.num < 0 then Option.none
        else some (.float (MQ.powInt p q.num))
      else Option.none
  | _ => Option.none

/-- Specification-side meaning of the unary operators: identity and
negation on ints and floats. -/
def specUn : PyUnaryOp → PyVal → Option PyVal
  | .uadd, .int n => some (.int n)
  | .uadd, .float q => some (.float q)
  | .usub, .int n => some (.int (-n))
  | .usub, .float q => some (.float (MQ.neg q))
  | _, _ => Option.none

/-- Specification-side denotation of a tree: the standard arithmetic value
of an expression built from numeric literals, the six whitelisted binary
operators and the two signs, with the precedence already encoded in the
tree shape.  Undefined (`Option.none`) outside that fragment and on
division or modulo by zero. -/
def specDenote : PyAst → Option PyVal
  | .const (.int n) => some (.int n)
  | .const (.float q) => some (.float q)
  | .binOp o l r => do
    let a ← specDenote l
    let b ← specDenote r
    specBin o a b
  | .unaryOp o e => do
    let a ← specDenote e
    specUn o a
  | _ => Option.none

/-- The exact mathematical integer value of an expression built from
integer literals, + - * %% and ** with nonnegative exponents, and unary
signs (claim C10); undefined elsewhere or on a zero modulus. -/
def intDenote : PyAst → Option ℤ
  | .const (.int n) => some n
  | .binOp .add l r => do
    let a ← intDenote l
    let b ← intDenote r
    some (a + b)
  | .binOp .sub l r => do
    let a ← intDenote l
    let b ← intDenote r
    some (a - b)
  | .binOp .mult l r => do
    let a ← intDenote l
    let b ← intDenote r
    some (a * b)
  | .binOp .mod l r => do
    let a ← intDenote l
    let b ← intDenote r
    if b = 0 then Option.none else some (Int.fmod a b)
  | .binOp .pow l r => do
    let a ← intDenote l
    let b ← intDenote r
    if b < 0 then Option.none else some (intPow a b.toNat)
  | .unaryOp .uadd e => intDenote e
  | .unaryOp .usub e => do
    let a ← intDenote e
    some (-a)
  | _ => Option.none

/-- A chain of n unary minus signs over the literal 1 (the parse tree of
the strings "-...-1"); each sign contributes two walked nodes. -/
def minusChain : ℕ → PyAst
  | 0 => .const (.int 1)
  | n + 1 => .unaryOp .usub (minusChain n)

theorem pyPow_error (l r : PyVal) (f : PyFail) (h : pyPow l r = .error f) :
    f = .DivisionByZero := by
  unfold pyPow at h
  repeat' split at h
  all_goals simp_all

theorem pyMod_error (l r : PyVal) (f : PyFail) (h : pyMod l r = .error f) :
    f = .DivisionByZero := by
  unfold pyMod at h
  repeat' split at h
  all_goals simp_all

/-- The only failures an application of a whitelisted operator can produce
are division-by-zero ones; the not-allowed arms produce InvalidSyntax. -/
theorem applyBin_error (o : PyBinOp) (l r : PyVal) (f : PyFail)
    (h : applyBin o l r = .error f) : f = .DivisionByZero ∨ f = .InvalidSyntax := by
  cases o <;> simp only [applyBin] at h
  case add => exact absurd h (by simp)
  case sub => exact absurd h (by simp)
  case mult => exact absurd h (by simp)
  case div => exact absurd h (by simp)
  case pow => exact Or.inl (pyPow_error l r f h)
  case mod => exact Or.inl (pyMod_error l r f h)
  all_goals injection h with h; exact Or.inr h.symm

/-- Every failure of the tree walk `_eval_ast` is InvalidSyntax (the
whitelist rejections) or DivisionByZero (the Div guard and the host's own
ZeroDivisionError sites); in particular the length and complexity failures
can only come from the surrounding `safe_eval` stages. -/
theorem eval_ast_error_kinds : ∀ (t : PyAst) (f : PyFail), eval_ast t = .error f →
    f = .InvalidSyntax ∨ f = .DivisionByZero
  | .const v, f, h => by cases v <;> simp_all [eval_ast]
  | .num _, f, h => by simp [eval_ast] at h
  | .binOp o l r, f, h => by
    simp only [eval_ast] at h
    split at h
    · rename_i fl heq
      injection h with h
      exact h ▸ eval_ast_error_kinds l fl heq
    · rename_i lv heq
      split at h
      · rename_i fr heq2
        injection h with h
        exact h ▸ eval_ast_error_kinds r fr heq2
      · rename_i rv heq2
        split at h
        · split at h
          · injection h with h
            exact Or.inr h.symm
          · exact (applyBin_error o lv rv f h).symm
        · injection h with h
          exact Or.inl h.symm
  | .unaryOp o e, f, h => by
    simp only [eval_ast] at h
    split at h
    · rename_i fe heq
      injection h with h
      exact h ▸ eval_ast_error_kinds e fe heq
    · rename_i v heq
      split at h
      · exact absurd h (by simp)
      · injection h with h
        exact Or.inl h.symm
  | .name _, f, h => by simp_all [eval_ast]
  | .call _ _, f, h => by simp_all [eval_ast]
  | .attr _ _, f, h => by simp_all [eval_ast]
  | .subscript _ _, f, h => by simp_all [eval_ast]
  | .listLit _, f, h => by simp_all [eval_ast]
  | .tupleLit _, f, h => by simp_all [eval_ast]
  | .compare _ _ _, f, h => by simp_all [eval_ast]
  | .boolOp _ _, f, h => by simp_all [eval_ast]
  | .ifExp _ _ _, f, h => by simp_all [eval_ast]
  | .seqNil, f, h => by simp_all [eval_ast]
  | .seqCons _ _, f, h => by simp_all [eval_ast]

/-- A tree containing a disallowed node never evaluates to a value: the
walk fails, with the whitelist rejection InvalidSyntax unless an operand
division-by-zero fires first. -/
theorem eval_ast_disallowed : ∀ t : PyAst, hasDisallowed t = true →
    eval_ast t = .error .InvalidSyntax ∨ eval_ast t = .error .DivisionByZero
  | .const v, h => by cases v <;> simp_all [eval_ast, hasDisallowed, constNumeric]
  | .num _, h => by simp [hasDisallowed] at h
  | .binOp o l r, h => by
    simp only [hasDisallowed, Bool.or_eq_true, Bool.not_eq_true'] at h
    simp only [eval_ast]
    rcases hl : eval_ast l with fl | lv
    · rcases eval_ast_error_kinds l fl hl with h1 | h1 <;> subst h1 <;> simp
    · rcases hr : eval_ast r with fr | rv
      · rcases eval_ast_error_kinds r fr hr with h1 | h1 <;> subst h1 <;> simp
      · by_cases ha : allowedBin o = true
        · rcases h with (h | h) | h
          · rw [ha] at h; cases h
          · rcases eval_ast_disallowed l h with h2 | h2 <;> rw [hl] at h2 <;> cases h2
          · rcases eval_ast_disallowed r h with h2 | h2 <;> rw [hr] at h2 <;> cases h2
        · simp [Bool.not_eq_true] at ha
          simp [ha]
  | .unaryOp o e, h => by
    simp only [hasDisallowed, Bool.or_eq_true, Bool.not_eq_true'] at h
    simp only [eval_ast]
    rcases he : eval_ast e with fe | v
    · rcases eval_ast_error_kinds e fe he with h1 | h1 <;> subst h1 <;> simp
    · by_cases ha : allowedUn o = true
      · rcases h with h | h
        · rw [ha] at h; cases h
        · rcases eval_ast_disallowed e h with h2 | h2 <;> rw [he] at h2 <;> cases h2
      · simp [Bool.not_eq_true] at ha
        simp [ha]
  | .name _, _ => by simp [eval_ast]
  | .call _ _, _ => by simp [eval_ast]
  | .attr _ _, _ => by simp [eval_ast]
  | .subscript _ _, _ => by simp [eval_ast]
  | .listLit _, _ => by simp [eval_ast]
  | .tupleLit _, _ => by simp [eval_ast]
  | .compare _ _ _, _ => by simp [eval_ast]
  | .boolOp _ _, _ => by simp [eval_ast]
  | .ifExp _ _ _, _ => by simp [eval_ast]
  | .seqNil, _ => by simp [eval_ast]
  | .seqCons _ _, _ => by simp [eval_ast]

theorem specBin_eval (o : PyBinOp) (x y v : PyVal) (h : specBin o x y = some v) :
    allowedBin o = true ∧
      (if o = PyBinOp.div ∧ pyEq0 y = true then (.error .DivisionByZero : Except PyFail PyVal)
       else applyBin o x y) = .ok v := by
  cases o <;>
    cases x <;> cases y <;>
      simp_all [specBin, bothInt, asSpecMQ, allowedBin, applyBin, pyArith, pyDiv, pyMod,
        pyPow, asIntV, asMQ, pyEq0, MQ.ofInt, Option.bind_eq_some] <;>
      (try split_ifs at h ⊢) <;> (try simp_all [MQ.ofInt])

theorem specUn_eval (o : PyUnaryOp) (x v : PyVal) (h : specUn o x = some v) :
    allowedUn o = true ∧ applyUn o x = v := by
  cases o <;> cases x <;> simp_all [specUn, applyUn, allowedUn]

/-- The evaluator agrees with the specification-side denotation wherever
the latter is defined. -/
theorem eval_ast_denote : ∀ (t : PyAst) (v : PyVal), specDenote t = some v →
    eval_ast t = .ok v
  | .const c, v, h => by cases c <;> simp_all [specDenote, eval_ast]
  | .binOp o l r, v, h => by
    simp only [specDenote, Option.bind_eq_bind, Option.bind_eq_some] at h
    obtain ⟨a, ha, b, hb, hab⟩ := h
    have Hl := eval_ast_denote l a ha
    have Hr := eval_ast_denote r b hb
    have H := specBin_eval o a b v hab
    simp only [eval_ast, Hl, Hr]
    rw [if_pos H.1]
    exact H.2
  | .unaryOp o e, v, h => by
    simp only [specDenote, Option.bind_eq_bind, Option.bind_eq_some] at h
    obtain ⟨a, ha, hu⟩ := h
    have He := eval_ast_denote e a ha
    have H := specUn_eval o a v hu
    simp only [eval_ast, He]
    rw [if_pos H.1, H.2]
  | .num _, v, h => by simp [specDenote] at h
  | .name _, v, h => by simp [specDenote] at h
  | .call _ _, v, h => by simp [specDenote] at h
  | .attr _ _, v, h => by simp [specDenote] at h
  | .subscript _ _, v, h => by simp [specDenote] at h
  | .listLit _, v, h => by simp [specDenote] at h
  | .tupleLit _, v, h => by simp [specDenote] at h
  | .compare _ _ _, v, h => by simp [specDenote] at h
  | .boolOp _ _, v, h => by simp [specDenote] at h
  | .ifExp _ _ _, v, h => by simp [specDenote] at h
  | .seqNil, v, h => by simp [specDenote] at h
  | .seqCons _ _, v, h => by simp [specDenote] at h

/-- On the integer fragment the evaluator returns exactly the mathematical
integer: no overflow, no wrap-around, no drift into floats. -/
theorem eval_ast_intDenote : ∀ (t : PyAst) (n : ℤ), intDenote t = some n →
    eval_ast t = .ok (.int n)
  | .const c, n, h => by cases c <;> simp_all [intDenote, eval_ast]
  | .binOp o l r, n, h => by
    cases o <;> simp only [intDenote, Option.bind_eq_bind, Option.bind_eq_some] at h <;>
      try exact Option.noConfusion h
    case add =>
      obtain ⟨a, ha, b, hb, hv⟩ := h
      injection hv with hv
      subst hv
      simp [eval_ast, eval_ast_intDenote l a ha, eval_ast_intDenote r b hb, allowedBin,
        applyBin, pyArith, asIntV]
    case sub =>
      obtain ⟨a, ha, b, hb, hv⟩ := h
      injection hv with hv
      subst hv
      simp [eval_ast, eval_ast_intDenote l a ha, eval_ast_intDenote r b hb, allowedBin,
        applyBin, pyArith, asIntV]
    case mult =>
      obtain ⟨a, ha, b, hb, hv⟩ := h
      injection hv with hv
      subst hv
      simp [eval_ast, eval_ast_intDenote l a ha, eval_ast_intDenote r b hb, allowedBin,
        applyBin, pyArith, asIntV]
    case mod =>
      obtain ⟨a, ha, b, hb, hv⟩ := h
      rw [ite_eq_iff] at hv
      rcases hv with ⟨_, hv⟩ | ⟨hb0, hv⟩
      · cases hv
      · injection hv with hv
        simp [eval_ast, eval_ast_intDenote l a ha, eval_ast_intDenote r b hb, allowedBin,
          applyBin, pyMod, pyEq0, asIntV, hb0, ← hv]
    case pow =>
      obtain ⟨a, ha, b, hb, hv⟩ := h
      rw [ite_eq_iff] at hv
      rcases hv with ⟨_, hv⟩ | ⟨hb0, hv⟩
      · cases hv
      · injection hv with hv
        simp [eval_ast, eval_ast_intDenote l a ha, eval_ast_intDenote r b hb, allowedBin,
          applyBin, pyPow, pyEq0, asIntV, not_lt.mp hb0, ← hv]
  | .unaryOp o e, n, h => by
    cases o <;> simp only [intDenote, Option.bind_eq_bind, Option.bind_eq_some] at h <;>
      try exact Option.noConfusion h
    case uadd =>
      simp [eval_ast, eval_ast_intDenote e n h, allowedUn, applyUn]
    case usub =>
      obtain ⟨a, ha, hv⟩ := h
      injection hv with hv
      simp [eval_ast, eval_ast_intDenote e a ha, allowedUn, applyUn, ← hv]
  | .num _, n, h => by simp [intDenote] at h
  | .name _, n, h => by simp [intDenote] at h
  | .call _ _, n, h => by simp [intDenote] at h
  | .attr _ _, n, h => by simp [intDenote] at h
  | .subscript _ _, n, h => by simp [intDenote] at h
  | .listLit _, n, h => by simp [intDenote] at h
  | .tupleLit _, n, h => by simp [intDenote] at h
  | .compare _ _ _, n, h => by simp [intDenote] at h
  | .boolOp _ _, n, h => by simp [intDenote] at h
  | .ifExp _ _ _, n, h => by simp [intDenote] at h
  | .seqNil, n, h => by simp [intDenote] at h
  | .seqCons _ _, n, h => by simp [intDenote] at h

theorem cacheLookup_mem : ∀ (c : List (String × PyVal)) (s : String) (v : PyVal),
    cacheLookup c s = some v → (s, v) ∈ c
  | [], _, _, h => by simp [cacheLookup] at h
  | p :: c, s, v, h => by
    cases p with
    | mk k w =>
      simp only [cacheLookup] at h
      split at h
      · rename_i hp
        injection h with h
        try dsimp only at hp h
        subst hp
        subst h
        exact List.mem_cons_self _ _
      · exact List.mem_cons_of_mem _ (cacheLookup_mem c s v h)

/-- A call through the cache returns exactly what a direct call to
`safe_eval` returns, for any cache state satisfying the invariant. -/
theorem cachedEval_correct (c : List (String × PyVal)) (s : String) (hc : cacheOK c) :
    (cachedEval c s).1 = safe_eval s := by
  unfold cachedEval
  rcases hl : cacheLookup c s with _ | v
  · rcases he : safe_eval s with f | v <;> simp [he]
  · simpa using (hc (s, v) (cacheLookup_mem c s v hl)).symm

/-- A call through the cache preserves the cache invariant. -/
theorem cachedEval_inv (c : List (String × PyVal)) (s : String) (hc : cacheOK c) :
    cacheOK (cachedEval c s).2 := by
  unfold cachedEval
  rcases hl : cacheLookup c s with _ | v
  · rcases he : safe_eval s with f | v
    · simpa using hc
    · simp only []
      intro p hp
      rcases List.mem_cons.mp (List.mem_of_mem_take hp) with hp | hp
      · rw [hp]; exact he
      · exact hc p hp
  · simp only []
    intro p hp
    rcases List.mem_cons.mp hp with hp | hp
    · rw [hp]
      exact hc (s, v) (cacheLookup_mem c s v hl)
    · exact hc p (List.mem_of_mem_eraseP hp)

/-- C1, counterexample: the claim says every input whose parsed tree
contains a disallowed node fails with InvalidSyntax.  The tree of the
string "1/0+[1,2,3]" contains a disallowed List node, yet evaluation fails
with DivisionByZero: the children of the Add node are evaluated left to
right before the whitelist can reject the list, and the Div guard fires
first. -/
theorem c1_counterexample :
    hasDisallowed (.binOp .add (.binOp .div (.const (.int 1)) (.const (.int 0)))
        (.listLit (.seqCons (.const (.int 1)) (.seqCons (.const (.int 2))
          (.seqCons (.const (.int 3)) .seqNil))))) = true ∧
    evalTop (.binOp .add (.binOp .div (.const (.int 1)) (.const (.int 0)))
        (.listLit (.seqCons (.const (.int 1)) (.seqCons (.const (.int 2))
          (.seqCons (.const (.int 3)) .seqNil))))) = .error .DivisionByZero ∧
    (Except.error PyFail.DivisionByZero : Except PyFail PyVal) ≠ .error .InvalidSyntax :=
  ⟨by decide, by decide, by decide⟩

/-- C1, amended: every tree containing a disallowed node evaluates to no
value: it fails with InvalidSyntax unless the complexity bound
(ExpressionTooComplex) or an operand division-by-zero (DivisionByZero)
fires first.  The injection examples all fail with InvalidSyntax: the trees
of __import__ applied to a string and of open applied to a string (calls
with name and string-constant nodes), the list display of the string
"[1,2,3]", and the strings "1; 2" (no eval-mode parse) and "a+1" (a name
node). -/
theorem c1_amended :
    (∀ t : PyAst, hasDisallowed t = true →
      evalTop t = .error .ExpressionTooComplex ∨ evalTop t = .error .InvalidSyntax ∨
        evalTop t = .error .DivisionByZero) ∧
    evalTop (.call (.name ("__import__")) (.seqCons (.const (.str ("os"))) .seqNil)) =
      .error .InvalidSyntax ∧
    evalTop (.call (.name ("open")) (.seqCons (.const (.str ("f"))) .seqNil)) =
      .error .InvalidSyntax ∧
    safe_eval ("1; 2") = .error .InvalidSyntax ∧
    evalTop (.listLit (.seqCons (.const (.int 1)) (.seqCons (.const (.int 2))
      (.seqCons (.const (.int 3)) .seqNil)))) = .error .InvalidSyntax ∧
    safe_eval ("a+1") = .error .InvalidSyntax := by
  refine ⟨fun t ht => ?_, by decide, by decide, by decide, by decide, by decide⟩
  unfold evalTop
  by_cases hc : 200 < 1 + walkCount t
  · rw [if_pos hc]
    exact Or.inl rfl
  · rw [if_neg hc]
    rcases eval_ast_disallowed t ht with h | h
    · exact Or.inr (Or.inl h)
    · exact Or.inr (Or.inr h)

/-- C1, witness for the amended statement, at the tree of the string
"a+1" (an Add whose left child is a name node). -/
theorem c1_witness :
    evalTop (.binOp .add (.name ("a")) (.const (.int 1))) = .error .ExpressionTooComplex ∨
    evalTop (.binOp .add (.name ("a")) (.const (.int 1))) = .error .InvalidSyntax ∨
    evalTop (.binOp .add (.name ("a")) (.const (.int 1))) = .error .DivisionByZero :=
  c1_amended.1 (.binOp .add (.name ("a")) (.const (.int 1))) (by decide)

/-- C2, code-bug evidence: on the input "(-1)**0.5" the evaluator
completes with a result that is neither an integer nor a float (in CPython,
`(-1) ** 0.5` is the complex number 6.123233995736766e-17+1j, which
`safe_eval` returns unclassified); the embedding records such a result as
`PyVal.irr`.  Together with OverflowError on inputs like "2.0**2000", this
contradicts the claim that every outcome is an int, a float, or one of the
five classified failures. -/
theorem c2_nonclassified_result : safe_eval ("(-1)**0.5") = .ok PyVal.irr := by decide

/-- C3, code-bug evidence: the claim (and the spec's whitelist) says
boolean literals are rejected, but `isinstance(True, int)` holds in the
host, so the constant whitelist accepts True and "True+1" evaluates to the
integer 2 instead of failing. -/
theorem c3_bool_accepted :
    eval_ast (.const (.bool true)) = .ok (.bool true) ∧
    evalTop (.binOp .add (.const (.bool true)) (.const (.int 1))) = .ok (.int 2) :=
  ⟨by decide, by decide⟩

/-- C4: whenever both operands of a division or modulo evaluate and the
right operand equals 0 by numeric equality (int 0, float 0.0, or False),
the whole operation fails with DivisionByZero; and concretely "1/0" and
"5%0" fail with DivisionByZero while "0/5" succeeds with the numeric value
0 (the float 0.0). -/
theorem c4_div_mod_zero :
    (∀ (lt rt : PyAst) (lv rv : PyVal), eval_ast lt = .ok lv → eval_ast rt = .ok rv →
      pyEq0 rv = true →
      eval_ast (.binOp .div lt rt) = .error .DivisionByZero ∧
      eval_ast (.binOp .mod lt rt) = .error .DivisionByZero) ∧
    safe_eval ("1/0") = .error .DivisionByZero ∧
    safe_eval ("5%0") = .error .DivisionByZero ∧
    safe_eval ("0/5") = .ok (.float (MQ.ofInt 0)) := by
  refine ⟨fun lt rt lv rv hl hr hz => ⟨?_, ?_⟩, by decide, by decide, by decide⟩
  · simp [eval_ast, hl, hr, allowedBin, hz]
  · simp [eval_ast, hl, hr, allowedBin, applyBin, pyMod, hz]

/-- C4, witness: the general statement applied at the trees of "1/0" and
"5%0". -/
theorem c4_witness :
    eval_ast (.binOp .div (.const (.int 1)) (.const (.int 0))) = .error .DivisionByZero ∧
    eval_ast (.binOp .mod (.const (.int 5)) (.const (.int 0))) = .error .DivisionByZero :=
  ⟨(c4_div_mod_zero.1 (.const (.int 1)) (.const (.int 0)) (.int 1) (.int 0)
      (by decide) (by decide) (by decide)).1,
   (c4_div_mod_zero.1 (.const (.int 5)) (.const (.int 0)) (.int 5) (.int 0)
      (by decide) (by decide) (by decide)).2⟩

/-- C5, counterexample: parenthesization creates no AST nodes, so nesting
"((((1))))"-style can never raise the node count: seventy nested
parentheses around 1 (a 141-character string, within the length bound)
parse to the bare literal and evaluate to 1 instead of failing with
ExpressionTooComplex. -/
theorem c5_counterexample :
    pyParse (List.replicate 70 '(' ++ '1' :: List.replicate 70 ')') =
      some (.const (.int 1)) ∧
    safe_evalL (List.replicate 70 '(' ++ '1' :: List.replicate 70 ')') = .ok (.int 1) :=
  ⟨by decide, by decide⟩

/-- C5, amended: after parsing, any tree whose walk-based node count
(including the Expression wrapper) exceeds 200 fails with
ExpressionTooComplex; deep nesting that does create nodes triggers it
within the length bound — e.g. the 121-character chain of 120 unary
minuses applied to 1 has 242 nodes and fails with ExpressionTooComplex —
but parentheses themselves add no nodes. -/
theorem c5_amended :
    (∀ t : PyAst, 200 < 1 + walkCount t → evalTop t = .error .ExpressionTooComplex) ∧
    safe_evalL (List.replicate 120 '-' ++ ['1']) = .error .ExpressionTooComplex := by
  refine ⟨fun t h => ?_, by decide⟩
  unfold evalTop
  rw [if_pos h]

/-- C5, witness for the amended statement, at the 120-deep unary-minus
chain. -/
theorem c5_witness :
    200 < 1 + walkCount (minusChain 120) ∧
    evalTop (minusChain 120) = .error .ExpressionTooComplex :=
  ⟨by decide, c5_amended.1 (minusChain 120) (by decide)⟩

/-- C6, counterexample: the claim fixes the precedence "unary plus/minus
over **", under which the value of "-2**2" would be the square of minus
two, namely 4; the evaluator (following the host grammar, where ** binds
tighter than a unary sign on its left) returns -4. -/
theorem c6_counterexample :
    safe_eval ("-2**2") = .ok (.int (-4)) ∧
    intPow (-2) 2 = 4 ∧
    (Except.ok (PyVal.int (-4)) : Except PyFail PyVal) ≠ .ok (.int 4) :=
  ⟨by decide, by decide, by decide⟩

/-- C6, amended: for valid arithmetic expressions over numeric literals,
the six operators, unary signs and parentheses (within bounds, no division
or modulo by zero, integral exponents), evaluation returns the standard
arithmetic value of the parsed tree (the general conjunct), under the
host's precedence: ** binds tighter than a unary sign on its left (so
"-2**2" is -4) while a sign directly in the exponent is allowed
("2**-1" is 0.5), ** is right-associative, * / %% bind over binary + -,
and all of those are left-associative. -/
theorem c6_amended :
    (∀ (t : PyAst) (v : PyVal), specDenote t = some v → eval_ast t = .ok v) ∧
    safe_eval ("2**10") = .ok (.int 1024) ∧
    safe_eval ("2**-1") = .ok (.float ⟨1, 2⟩) ∧
    safe_eval ("-2**2") = .ok (.int (-4)) ∧
    safe_eval ("2**3**2") = .ok (.int 512) ∧
    safe_eval ("2+3*4") = .ok (.int 14) ∧
    safe_eval ("10-4-3") = .ok (.int 3) ∧
    safe_eval ("(2+3)*4") = .ok (.int 20) ∧
    safe_eval ("100/10/5") = .ok (.float ⟨2, 1⟩) ∧
    safe_eval ("2*3%4") = .ok (.int 2) :=
  ⟨eval_ast_denote, by decide, by decide, by decide, by decide, by decide, by decide,
   by decide, by decide, by decide⟩

/-- C6, witness for the amended statement, at the tree of "2**10". -/
theorem c6_witness :
    specDenote (.binOp .pow (.const (.int 2)) (.const (.int 10))) = some (.int 1024) ∧
    eval_ast (.binOp .pow (.const (.int 2)) (.const (.int 10))) = .ok (.int 1024) :=
  ⟨by decide, c6_amended.1 (.binOp .pow (.const (.int 2)) (.const (.int 10)))
    (.int 1024) (by decide)⟩

/-- C7: the input guard strips whitespace and then fails with
EmptyExpression on an empty result and with ExpressionTooLong exactly when
the stripped length exceeds 300 characters (no other stage produces
ExpressionTooLong). -/
theorem c7_input_guard :
    (∀ s : String, pyStripL s.toList = [] → safe_eval s = .error .EmptyExpression) ∧
    (∀ s : String, 300 < (pyStripL s.toList).length →
      safe_eval s = .error .ExpressionTooLong) ∧
    (∀ s : String, (pyStripL s.toList).length ≤ 300 →
      safe_eval s ≠ .error .ExpressionTooLong) := by
  refine ⟨fun s h => ?_, fun s h => ?_, fun s h => ?_⟩
  · simp only [String.toList] at h
    simp [safe_eval, safe_evalL, h]
  · simp only [String.toList] at h
    have hne : ¬ pyStripL s.data = [] := by
      intro he
      rw [he] at h
      simp at h
    simp [safe_eval, safe_evalL, hne, h]
  · simp only [String.toList] at h
    simp only [safe_eval, safe_evalL]
    split
    · simp
    · split
      · rename_i hlen
        exact absurd hlen (not_lt.mpr h)
      · split
        · rename_i t ht
          unfold evalTop
          split
          · simp
          · rcases he : eval_ast t with f | v
            · rcases eval_ast_error_kinds t f he with h1 | h1 <;> subst h1 <;> simp [he]
            · simp [he]
        · simp

/-- C7, witness: the empty and whitespace-only strings fail with
EmptyExpression, a 301-digit string fails with ExpressionTooLong, and a
300-digit string is not rejected by the length rule. -/
theorem c7_witness :
    safe_eval ("   ") = .error .EmptyExpression ∧
    safe_eval (String.mk (List.replicate 301 '5')) = .error .ExpressionTooLong ∧
    safe_eval (String.mk (List.replicate 300 '5')) ≠ .error .ExpressionTooLong :=
  ⟨c7_input_guard.1 ("   ") (by decide),
   c7_input_guard.2.1 (String.mk (List.replicate 301 '5')) (by decide),
   c7_input_guard.2.2 (String.mk (List.replicate 300 '5')) (by decide)⟩

/-- C8: evaluation through the bounded memoization cache is observably
identical to a direct call for every cache state satisfying the reachable-
state invariant, the invariant is preserved, and a repeated call with the
same string yields the identical outcome. -/
theorem c8_cache_transparent :
    ∀ (c : List (String × PyVal)) (s : String), cacheOK c →
      (cachedEval c s).1 = safe_eval s ∧ cacheOK (cachedEval c s).2 ∧
      (cachedEval (cachedEval c s).2 s).1 = (cachedEval c s).1 :=
  fun c s hc =>
    ⟨cachedEval_correct c s hc, cachedEval_inv c s hc,
      (cachedEval_correct (cachedEval c s).2 s (cachedEval_inv c s hc)).trans
        (cachedEval_correct c s hc).symm⟩

/-- C8, witness: starting from the empty cache with the input "1+1". -/
theorem c8_witness :
    (cachedEval [] ("1+1")).1 = safe_eval ("1+1") ∧
    cacheOK (cachedEval [] ("1+1")).2 ∧
    (cachedEval (cachedEval [] ("1+1")).2 ("1+1")).1 = (cachedEval [] ("1+1")).1 :=
  c8_cache_transparent [] ("1+1") (fun p hp => absurd hp (List.not_mem_nil p))

/-- C9, counterexample: the claim says integer-valued results are rendered
without a decimal point or exponent, but "2.0**50" evaluates to the
integer-valued float 1125899906842624.0, which the ten-significant-digit
format renders in exponent form (and rounded) as "1.125899907e+15". -/
theorem c9_counterexample :
    safe_eval ("2.0**50") = .ok (.float (MQ.ofInt 1125899906842624)) ∧
    fmt_res (.float (MQ.ofInt 1125899906842624)) = "1.125899907e+15" ∧
    ("1.125899907e+15").toList.contains ('e') = true :=
  ⟨by decide, by decide, by decide⟩

/-- C9, amended: int-typed results render as plain decimal strings; float
results render with at most ten significant digits, trailing zeros
trimmed, switching to exponent form for magnitudes at or above 1e10 even
when integer-valued; "10/4" gives the float 2.5 displayed "2.5" and "1/3"
formats as "0.3333333333". -/
theorem c9_amended :
    (∀ n : ℤ, fmt_res (.int n) = toString n) ∧
    safe_eval ("10/4") = .ok (.float ⟨5, 2⟩) ∧
    fmt_res (.float ⟨5, 2⟩) = "2.5" ∧
    safe_eval ("1/3") = .ok (.float ⟨1, 3⟩) ∧
    fmt_res (.float ⟨1, 3⟩) = "0.3333333333" ∧
    fmt_res (.float ⟨-33, 8⟩) = "-4.125" :=
  ⟨fun _ => rfl, by decide, by decide, by decide, by decide, by decide⟩

/-- C10: on expressions built from integer literals with + - * %% and **
(nonnegative exponents, nonzero moduli) and unary signs, the evaluator
returns the exact mathematical integer with arbitrary precision — in
particular "2**200" returns the exact 61-digit power — with no overflow,
wrap-around, or drift to floating point. -/
theorem c10_exact_integers :
    (∀ (t : PyAst) (n : ℤ), intDenote t = some n → eval_ast t = .ok (.int n)) ∧
    safe_eval ("2**200") =
      .ok (.int 1606938044258990275541962092341162602522202993782792835301376) :=
  ⟨eval_ast_intDenote, by decide⟩

/-- C10, witness for the general conjunct, at the tree of "2**200". -/
theorem c10_witness :
    intDenote (.binOp .pow (.const (.int 2)) (.const (.int 200))) = some (intPow 2 200) ∧
    eval_ast (.binOp .pow (.const (.int 2)) (.const (.int 200))) =
      .ok (.int (intPow 2 200)) :=
  ⟨by decide, c10_exact_integers.1 (.binOp .pow (.const (.int 2)) (.const (.int 200)))
    (intPow 2 200) (by decide)⟩

/-- C9, witness for the universally quantified conjunct of the amended
statement, at the integer -7. -/
theorem c9_witness : fmt_res (.int (-7)) = toString (-7 : ℤ) :=
  c9_amended.1 (-7)
